import Mathlib

/-!
Shallow embedding of the `simd_psmap` crate (file `src/lib.rs`): the
`SimdPerfectScanMap` structure, its `try_from` construction (position
selection plus layout building) and its `get` / `iter` / `len` queries.

Modelling conventions:
* byte strings are `List Nat` with entries understood modulo 256 (every byte
  produced by the model is `< 256`: literal key bytes and `% 256` pad bytes);
* `usize` arithmetic is `Nat`, with wrapping subtraction made explicit as
  subtraction in `Int` followed by `% 2 ^ 64` (and `as u8` as a further
  `% 256`);
* the SIMD lanes `Simd<u8, LANE_SIZE>` are `List Nat` of length `LANE_SIZE`;
  the elementwise `&` against a `simd_eq(..).to_int()` mask (lanes `-1` or
  `0`) keeps a lane value on equality and zeroes it otherwise, which is what
  the per-slot fold below does;
* `Vec` indexing that the Rust code performs without bounds checks is
  modelled with `getD` / `getElem?`; the in-range proofs are the theorems;
* the `.unwrap()` on `min_by_key` over an empty score vector (reachable when
  every key is empty, so `max_len = 0`) is a Rust panic and is modelled by a
  dedicated `panicked` outcome, distinct from the `Err` returns.
-/

set_option maxRecDepth 100000

/-- The crate constant capping how deep into a key the selector may look. -/
def MAX_KEY_SEARCH_LEN : Nat := 32

/-- Bit width of `usize` on the targets the crate is built for. -/
def usizeBits : Nat := 64

/-- The value `usize::MAX`, used by the selector as an infinite score. -/
def usizeMax : Nat := 2 ^ 64 - 1

/-- Fuel-bounded binary length: `bitLengthAux fuel x` is the number of binary
digits of `x` provided `x < 2 ^ fuel`; the fuel mirrors the 64-bit width of
`usize`, on which `leading_zeros` operates. -/
def bitLengthAux : Nat → Nat → Nat
  | 0, _ => 0
  | fuel + 1, x => if x = 0 then 0 else bitLengthAux fuel (x / 2) + 1

/-- Model of `usize::leading_zeros` for the 64-bit targets of the crate. -/
def leading_zeros (x : Nat) : Nat := usizeBits - bitLengthAux usizeBits x

/-- Model of `roughly_log_2` from `src/lib.rs`:
`(usize::BITS - x.leading_zeros()) as usize`. -/
def roughly_log_2 (x : Nat) : Nat := usizeBits - leading_zeros x

/-- Model of `char_idx.wrapping_sub(len) as u8`: wrapping `usize`
subtraction followed by truncation to a byte. -/
def padByte (char_idx len : Nat) : Nat :=
  ((((char_idx : Int) - (len : Int)) % (2 ^ 64 : Int)) % 256).toNat

/-- Model of `*k.get(i).unwrap_or(&(i.wrapping_sub(k.len()) as u8))`: the
byte of key `k` at offset `i`, padded with the length-aware pad byte beyond
the end of the key.  Used by the position selector and the layout builder. -/
def charAt (k : List Nat) (i : Nat) : Nat :=
  match k[i]? with
  | some c => c
  | none => padByte i k.length

/-- The score contribution of one key `k_self` (lines 76-91 of the source):
AND together, over every chosen position, whether each other key agrees with
`k_self` there, count the surviving keys, subtract the self-match and take
`roughly_log_2`. -/
def keyScore (keys : List (List Nat)) (positions : List Nat) (k_self : List Nat) : Nat :=
  let tests_matches_keys : List Bool :=
    keys.map (fun k_other =>
      positions.foldl (fun t char_idx_sub =>
        t && (charAt k_self char_idx_sub == charAt k_other char_idx_sub)) true)
  let tests_scan_n_other_keys : Nat := tests_matches_keys.count true - 1
  roughly_log_2 tests_scan_n_other_keys

/-- The per-candidate score vector of one selector iteration (lines 68-94):
already-chosen offsets score `usize::MAX`, a fresh candidate is scored by
temporarily appending it and summing `keyScore` over all keys. -/
def positionScores (keys : List (List Nat)) (positions : List Nat) (max_len : Nat) : List Nat :=
  (List.range max_len).map (fun new_char_idx =>
    if positions.contains new_char_idx then usizeMax
    else (keys.map (keyScore keys (positions ++ [new_char_idx]))).sum)

/-- Model of `Iterator::min_by_key` keyed on the second component: the first
element with minimal key, `none` on an empty list. -/
def minByFirst : List (Nat × Nat) → Option (Nat × Nat)
  | [] => none
  | p :: rest =>
    match minByFirst rest with
    | none => some p
    | some q => if q.2 < p.2 then some q else some p

/-- Model of `scores.iter().enumerate().min_by_key(|(_, s)| *s)`, keeping
only the index of the first minimal score. -/
def argminFirst (l : List Nat) : Option Nat :=
  (minByFirst l.enum).map (fun p => p.1)

/-- Result of the greedy position-selection loop. -/
inductive SelOutcome where
  | solved (positions : List Nat)
  | unsolved
  | panicked
deriving DecidableEq

/-- The greedy selection loop (lines 67-101): at most `fuel` iterations, each
scoring all candidates, appending the (first) minimum and stopping as solved
when that minimum is 0.  `panicked` models the `.unwrap()` on an empty score
vector, `unsolved` the exit of the `for` loop with `solved == false`. -/
def selectPositions (keys : List (List Nat)) (max_len : Nat) : Nat → List Nat → SelOutcome
  | 0, _ => .unsolved
  | fuel + 1, positions =>
    match argminFirst (positionScores keys positions max_len) with
    | none => .panicked
    | some best_idx =>
      if (positionScores keys positions max_len).getD best_idx 0 = 0
      then .solved (positions ++ [best_idx])
      else selectPositions keys max_len fuel (positions ++ [best_idx])

/-- The map structure of the crate.  `MAX_LANES` and `LANE_SIZE` are the two
const generics; the three arrays are kept only on their used prefix of
length `n_lanes_of_entities * n_chars` (the Rust code inlines them at size
`MAX_LANES` but never reads beyond the used prefix). -/
structure SimdPerfectScanMap (T : Type) where
  MAX_LANES : Nat
  LANE_SIZE : Nat
  key_vals : List (List Nat × T)
  n_lanes_of_entities : Nat
  n_chars : Nat
  char_positions : List Nat
  indexes : List (List Nat)
  n_valid : List Nat
deriving DecidableEq

/-- Outcome of `try_from`: success, one of the three `Err` returns (carrying
the input back), or a Rust panic. -/
inductive BuildErr where
  | emptyInput
  | capacityExceeded
  | unsolvable
deriving DecidableEq

/-- Result type of the modelled `try_from`. -/
inductive BuildOutcome (T : Type) where
  | ok (m : SimdPerfectScanMap T)
  | err (e : BuildErr) (key_vals : List (List Nat × T))
  | panicked
deriving DecidableEq

/-- The keys of the input list, in order. -/
def keysOf {T : Type} (key_vals : List (List Nat × T)) : List (List Nat) :=
  key_vals.map Prod.fst

/-- Line 55 of the source: longest key length capped at
`MAX_KEY_SEARCH_LEN`. -/
def maxLenOf (keys : List (List Nat)) : Nat :=
  min ((keys.map List.length).foldl max 0) MAX_KEY_SEARCH_LEN

/-- Line 57: `key_vals.len().div_ceil(LANE_SIZE)`. -/
def nLanesOf (n_keys LANE_SIZE : Nat) : Nat :=
  (n_keys + LANE_SIZE - 1) / LANE_SIZE

/-- One test plane (lines 117-124): slot `i` holds the byte of entry
`lane_idx * LANE_SIZE + i` at offset `p` (with length-aware padding); slots
past the end of the entry list keep the `splat(0)` fill. -/
def laneVector (keys : List (List Nat)) (LANE_SIZE lane_idx p : Nat) : List Nat :=
  (List.range LANE_SIZE).map (fun i =>
    match keys[lane_idx * LANE_SIZE + i]? with
    | some k => charAt k p
    | none => 0)

/-- The row-major fill pattern of the three layout arrays: entry
`x * b + y` (for `x < a`, `y < b`) holds `f x y`. -/
def grid {α : Type} (a b : Nat) (f : Nat → Nat → α) : List α :=
  (List.range a).flatMap (fun x => (List.range b).map (f x))

/-- Line 125: number of real entries in a lane group. -/
def nValidOf (n_keys LANE_SIZE lane_idx : Nat) : Nat :=
  min n_keys (lane_idx * LANE_SIZE + LANE_SIZE) - lane_idx * LANE_SIZE

/-- The layout-building phase (lines 107-136), given the selected
positions.  `char_positions[lane * n_chars + scan] = positions[scan]`,
`indexes[test_idx]` is the test plane, `n_valid[test_idx]` the group's entry
count. -/
def mkMap {T : Type} (MAX_LANES LANE_SIZE : Nat) (key_vals : List (List Nat × T))
    (positions : List Nat) : SimdPerfectScanMap T :=
  let keys := keysOf key_vals
  let n_lanes_of_entities := nLanesOf key_vals.length LANE_SIZE
  let n_chars := positions.length
  { MAX_LANES := MAX_LANES
    LANE_SIZE := LANE_SIZE
    key_vals := key_vals
    n_lanes_of_entities := n_lanes_of_entities
    n_chars := n_chars
    char_positions := grid n_lanes_of_entities n_chars (fun _ scan => positions.getD scan 0)
    indexes := grid n_lanes_of_entities n_chars
      (fun lane scan => laneVector keys LANE_SIZE lane (positions.getD scan 0))
    n_valid := grid n_lanes_of_entities n_chars
      (fun lane _ => nValidOf key_vals.length LANE_SIZE lane) }

/-- Model of `try_from` (lines 46-137). -/
def try_from {T : Type} (MAX_LANES LANE_SIZE : Nat) (key_vals : List (List Nat × T)) :
    BuildOutcome T :=
  if key_vals.length = 0 then .err .emptyInput key_vals
  else if key_vals.length > MAX_LANES * LANE_SIZE then .err .capacityExceeded key_vals
  else
    match selectPositions (keysOf key_vals) (maxLenOf (keysOf key_vals))
        (MAX_LANES / nLanesOf key_vals.length LANE_SIZE) [] with
    | .panicked => .panicked
    | .unsolved => .err .unsolvable key_vals
    | .solved positions => .ok (mkMap MAX_LANES LANE_SIZE key_vals positions)

/-- Lines 170-172 of `get`: the query byte fed to the comparison at offset
`char_idx` — the real byte when in range and nonzero, otherwise the
length-aware pad byte computed from the query's own length. -/
def queryChar (query : List Nat) (char_idx : Nat) : Nat :=
  let alt := padByte char_idx query.length
  let query_c := (query[char_idx]?).getD 0
  if query_c = 0 then alt else query_c

/-- The per-slot match state of one lane group after the full position scan
(lines 158-177, elementwise): slot `i` starts at `LANE_SIZE - i` and each
scan either keeps it (stored byte equals the query byte) or zeroes it (the
`&` against the `simd_eq(..).to_int()` mask). -/
def laneSlotMatched {T : Type} (m : SimdPerfectScanMap T) (query : List Nat)
    (lane_idx i : Nat) : Nat :=
  (List.range m.n_chars).foldl (fun acc scan_idx =>
    let test_idx := lane_idx * m.n_chars + scan_idx
    let query_c := queryChar query (m.char_positions.getD test_idx 0)
    if (m.indexes.getD test_idx []).getD i 0 = query_c then acc else 0)
    (m.LANE_SIZE - i)

/-- Line 185: `LANE_SIZE - matched.reduce_max() as usize` for one lane
group. -/
def laneMatched {T : Type} (m : SimdPerfectScanMap T) (query : List Nat)
    (lane_idx : Nat) : Nat :=
  m.LANE_SIZE -
    ((List.range m.LANE_SIZE).map (fun i => laneSlotMatched m query lane_idx i)).foldl max 0

/-- Line 186: the contribution of one lane group to `matched_idx`. -/
def laneIncrement {T : Type} (m : SimdPerfectScanMap T) (query : List Nat)
    (lane_idx : Nat) : Nat :=
  let matched := laneMatched m query lane_idx
  if matched < m.n_valid.getD (lane_idx * m.n_chars + m.n_chars - 1) 0 ∧ matched ≠ 0
  then matched + lane_idx * m.LANE_SIZE else 0

/-- The accumulated candidate index over all lane groups (lines 155-187). -/
def matchedIdx {T : Type} (m : SimdPerfectScanMap T) (query : List Nat) : Nat :=
  (List.range m.n_lanes_of_entities).foldl
    (fun acc lane_idx => acc + laneIncrement m query lane_idx) 0

/-- Model of `get` (lines 147-196): scan, then confirm the candidate entry's
key byte-for-byte.  The out-of-range case of the candidate access (undefined
behaviour in Rust, proved unreachable below) answers `none`. -/
def SimdPerfectScanMap.get {T : Type} (m : SimdPerfectScanMap T) (query : List Nat) :
    Option T :=
  match m.key_vals[matchedIdx m query]? with
  | some found => if found.1 = query then some found.2 else none
  | none => none

/-- Model of `iter` (lines 198-200): the stored entries in insertion
order. -/
def SimdPerfectScanMap.iter {T : Type} (m : SimdPerfectScanMap T) : List (List Nat × T) :=
  m.key_vals

/-- Model of `len` (lines 202-204). -/
def SimdPerfectScanMap.len {T : Type} (m : SimdPerfectScanMap T) : Nat :=
  m.key_vals.length

/-- A throwaway inhabitant used only to extract the map from a `BuildOutcome`
in concrete examples. -/
def junkMap (T : Type) [Inhabited T] : SimdPerfectScanMap T :=
  { MAX_LANES := 0, LANE_SIZE := 0, key_vals := [], n_lanes_of_entities := 0,
    n_chars := 0, char_positions := [], indexes := [], n_valid := [] }

/-- Extract the constructed map from a build outcome (for concrete
examples). -/
def okOr {T : Type} (b : BuildOutcome T) (d : SimdPerfectScanMap T) : SimdPerfectScanMap T :=
  match b with
  | .ok m => m
  | _ => d

example : try_from 4 2 [([97], 1), ([98], 2)] = .ok (okOr (try_from 4 2 [([97], 1), ([98], 2)]) (junkMap Nat)) := by decide

/-- The tuple of bytes of key `k` at the offsets `P`, with length-aware
padding: two keys collide exactly when their tuples are equal. -/
def keyTuple (P : List Nat) (k : List Nat) : List Nat := P.map (charAt k)

/-- Specification-side pad byte: `(offset - key_length) mod 256`, as the spec
words it (to be proved equal to the code's `padByte`). -/
def padByteSpec (char_idx len : Nat) : Nat :=
  (((char_idx : Int) - (len : Int)) % 256).toNat

/-- Specification-side count of the keys (including `k` itself) that are
indistinguishable from `k` on the position list `P`. -/
def indistCount (keys : List (List Nat)) (P : List Nat) (k : List Nat) : Nat :=
  (keys.filter (fun k2 => keyTuple P k == keyTuple P k2)).length

/-- Specification-side score of an unchosen candidate offset `i`: the sum
over all keys of `ceil(log2(count of indistinguishable keys including
self))` on the tentative position list. -/
def specPositionScore (keys : List (List Nat)) (positions : List Nat) (i : Nat) : Nat :=
  (keys.map (fun k => Nat.clog 2 (indistCount keys (positions ++ [i]) k))).sum

/-- A slot of a lane group that lies inside the group's valid range and
whose match state is still nonzero after the full per-position scan. -/
def validSlotSurvives {T : Type} (m : SimdPerfectScanMap T) (query : List Nat)
    (g i : Nat) : Prop :=
  g < m.n_lanes_of_entities ∧
  i < m.n_valid.getD (g * m.n_chars + m.n_chars - 1) 0 ∧
  laneSlotMatched m query g i ≠ 0

/-- The `n_chars` of a successfully built map, if any. -/
def nCharsOf {T : Type} : BuildOutcome T → Option Nat
  | .ok m => some m.n_chars
  | _ => none

/-- A two-key example input (keys `"a"`, `"b"`). -/
def exKvs : List (List Nat × Nat) := [([97], 1), ([98], 2)]

/-- The map built from `exKvs` with `MAX_LANES = 4`, `LANE_SIZE = 2`. -/
def mEx : SimdPerfectScanMap Nat := okOr (try_from 4 2 exKvs) (junkMap Nat)

/-- The map built from `exKvs` with `MAX_LANES = 4`, `LANE_SIZE = 4`: one
lane group with two padding slots. -/
def mExC3 : SimdPerfectScanMap Nat := okOr (try_from 4 4 exKvs) (junkMap Nat)

/-- Three keys `"a"`, `"b"`, `"c"` with `LANE_SIZE = 2`: entry 2 is the
first slot of lane group 1. -/
def kvsC2 : List (List Nat × Nat) := [([97], 1), ([98], 2), ([99], 3)]

/-- The map built from `kvsC2` with `MAX_LANES = 4`, `LANE_SIZE = 2`. -/
def mC2 : SimdPerfectScanMap Nat := okOr (try_from 4 2 kvsC2) (junkMap Nat)

/-- Two entries with the same key `"a"`. -/
def dupKvs : List (List Nat × Nat) := [([97], 1), ([97], 2)]

/-- Two entries with the same key `"a"` and other values. -/
def dupKvs2 : List (List Nat × Nat) := [([97], 10), ([97], 20)]

/-- The four keys of the unsolvability-boundary test:
`"aaaa"`, `"abaa"`, `"aaca"`, `"aaad"`. -/
def kvs8 : List (List Nat × Nat) :=
  [([97, 97, 97, 97], 1001), ([97, 98, 97, 97], 1002),
   ([97, 97, 99, 97], 1003), ([97, 97, 97, 100], 1004)]

/-! ### Arithmetic facts about the bit-length model -/

lemma bitLengthAux_le : ∀ fuel x, bitLengthAux fuel x ≤ fuel
  | 0, _ => Nat.le_refl 0
  | fuel + 1, x => by
    unfold bitLengthAux
    split
    · exact Nat.zero_le _
    · exact Nat.succ_le_succ (bitLengthAux_le fuel (x / 2))

lemma roughly_log_2_eq_bitLength (x : Nat) : roughly_log_2 x = bitLengthAux 64 x := by
  have h := bitLengthAux_le 64 x
  unfold roughly_log_2 leading_zeros usizeBits
  omega

lemma roughly_log_2_eq_zero_iff (x : Nat) : roughly_log_2 x = 0 ↔ x = 0 := by
  rw [roughly_log_2_eq_bitLength]
  constructor
  · intro h
    by_contra hx
    rw [show (64 : Nat) = 63 + 1 from rfl] at h
    unfold bitLengthAux at h
    simp [hx] at h
  · intro h
    subst h
    rfl

lemma bitLengthAux_zero : ∀ fuel, bitLengthAux fuel 0 = 0
  | 0 => rfl
  | _fuel + 1 => by unfold bitLengthAux; rw [if_pos rfl]

lemma bitLengthAux_eq_log : ∀ fuel x, 0 < x → x < 2 ^ fuel →
    bitLengthAux fuel x = Nat.log 2 x + 1 := by
  intro fuel
  induction fuel with
  | zero => intro x hx hlt; omega
  | succ fuel ih =>
    intro x hx hlt
    unfold bitLengthAux
    rw [if_neg (Nat.pos_iff_ne_zero.mp hx)]
    rcases Nat.lt_or_ge x 2 with h2 | h2
    · interval_cases x
      simp [bitLengthAux_zero]
    · have hhalf : 0 < x / 2 := Nat.div_pos h2 (by norm_num)
      have hhalf2 : x / 2 < 2 ^ fuel := by
        rw [Nat.div_lt_iff_lt_mul (by norm_num)]
        calc x < 2 ^ (fuel + 1) := hlt
        _ = 2 ^ fuel * 2 := by ring
      rw [ih (x / 2) hhalf hhalf2, Nat.log_of_one_lt_of_le (by norm_num) h2]

lemma roughly_log_2_eq_clog (x : Nat) (hx : x < 2 ^ 64) :
    roughly_log_2 x = Nat.clog 2 (x + 1) := by
  rw [roughly_log_2_eq_bitLength]
  rcases Nat.eq_zero_or_pos x with h0 | h0
  · subst h0
    simp [bitLengthAux, Nat.clog_one_right]
  · rw [bitLengthAux_eq_log 64 x h0 hx]
    have hle : Nat.clog 2 (x + 1) ≤ Nat.log 2 x + 1 := by
      rw [← Nat.le_pow_iff_clog_le (by norm_num)]
      exact Nat.lt_pow_succ_log_self (by norm_num) x
    have hge : Nat.log 2 x + 1 ≤ Nat.clog 2 (x + 1) := by
      by_contra hcon
      have hclog : Nat.clog 2 (x + 1) ≤ Nat.log 2 x := by omega
      have := (Nat.le_pow_iff_clog_le (b := 2) (by norm_num)).mpr hclog
      have hpow := Nat.pow_log_le_self 2 (Nat.pos_iff_ne_zero.mp h0)
      omega
    omega

/-! ### Fold lemmas used by the scoring and scanning models -/

lemma foldl_and_eq_all {α : Type} (f : α → Bool) :
    ∀ (l : List α) (b : Bool), l.foldl (fun t x => t && f x) b = (b && l.all f)
  | [], b => by simp
  | x :: xs, b => by
    rw [List.foldl_cons, foldl_and_eq_all f xs (b && f x), List.all_cons, Bool.and_assoc]

lemma foldl_ite_zero_zero {α : Type} (p : α → Prop) [DecidablePred p] :
    ∀ l : List α, l.foldl (fun acc s => if p s then acc else 0) 0 = 0
  | [] => rfl
  | x :: xs => by
    rw [List.foldl_cons]
    simpa using foldl_ite_zero_zero p xs

lemma foldl_ite_zero {α : Type} (p : α → Prop) [DecidablePred p] :
    ∀ (l : List α) (init : Nat),
      l.foldl (fun acc s => if p s then acc else 0) init =
        if ∀ s ∈ l, p s then init else 0
  | [], init => by simp
  | x :: xs, init => by
    rw [List.foldl_cons]
    by_cases hp : p x
    · rw [if_pos hp, foldl_ite_zero p xs init]
      by_cases hall : ∀ s ∈ xs, p s
      · rw [if_pos hall, if_pos (by simpa [List.forall_mem_cons] using ⟨hp, hall⟩)]
      · rw [if_neg hall, if_neg (by simp [List.forall_mem_cons, hall])]
    · rw [if_neg hp, foldl_ite_zero_zero p xs,
        if_neg (by simp [List.forall_mem_cons]; intro h; exact absurd h hp)]

lemma le_foldl_max : ∀ (l : List Nat) (a : Nat), a ≤ l.foldl max a
  | [], a => Nat.le_refl a
  | x :: xs, a => Nat.le_trans (Nat.le_max_left a x) (le_foldl_max xs (max a x))

lemma mem_le_foldl_max : ∀ (l : List Nat) (a x : Nat), x ∈ l → x ≤ l.foldl max a
  | [], _, _, h => absurd h (List.not_mem_nil _)
  | y :: ys, a, x, h => by
    rcases List.mem_cons.mp h with rfl | h
    · exact Nat.le_trans (Nat.le_max_right a x) (le_foldl_max ys (max a x))
    · exact mem_le_foldl_max ys (max a y) x h

lemma foldl_max_eq_init_or_mem : ∀ (l : List Nat) (a : Nat),
    l.foldl max a = a ∨ l.foldl max a ∈ l
  | [], a => Or.inl rfl
  | x :: xs, a => by
    rcases foldl_max_eq_init_or_mem xs (max a x) with h | h
    · rw [List.foldl_cons, h]
      rcases max_choice a x with h' | h'
      · exact Or.inl h'
      · rw [h']
        exact Or.inr (List.mem_cons_self x xs)
    · exact Or.inr (List.mem_cons_of_mem x h)

lemma foldl_add_eq_sum {α : Type} (f : α → Nat) :
    ∀ (l : List α) (a : Nat), l.foldl (fun acc x => acc + f x) a = a + (l.map f).sum
  | [], a => by simp
  | x :: xs, a => by
    rw [List.foldl_cons, foldl_add_eq_sum f xs (a + f x)]
    simp [Nat.add_assoc]

lemma foldl_max_zero_eq_zero_iff (l : List Nat) :
    l.foldl max 0 = 0 ↔ ∀ x ∈ l, x = 0 := by
  constructor
  · intro h x hx
    have := mem_le_foldl_max l 0 x hx
    omega
  · intro h
    rcases foldl_max_eq_init_or_mem l 0 with h' | h'
    · exact h'
    · exact h _ h'

/-! ### Indexing lemmas for the row-major layout arrays -/

lemma rangeMap_getD {α : Type} (g : Nat → α) {y b : Nat} (hy : y < b) (d : α) :
    ((List.range b).map g).getD y d = g y := by
  rw [List.getD_eq_getElem?_getD, List.getElem?_map, List.getElem?_range hy]
  rfl

lemma grid_succ {α : Type} (a b : Nat) (f : Nat → Nat → α) :
    grid (a + 1) b f = grid a b f ++ (List.range b).map (f a) := by
  unfold grid
  rw [List.range_succ, List.flatMap_append]
  simp

lemma grid_length {α : Type} : ∀ (a : Nat) (b : Nat) (f : Nat → Nat → α),
    (grid a b f).length = a * b
  | 0, b, f => by simp [grid]
  | a + 1, b, f => by
    rw [grid_succ, List.length_append, grid_length a b f, List.length_map,
      List.length_range, Nat.succ_mul]

lemma grid_getD {α : Type} : ∀ (a : Nat) {b x y : Nat} (f : Nat → Nat → α) (d : α),
    x < a → y < b → (grid a b f).getD (x * b + y) d = f x y
  | 0, _b, _x, _y, _f, _d, hx, _hy => absurd hx (Nat.not_lt_zero _)
  | a + 1, b, x, y, f, d, hx, hy => by
    rw [grid_succ]
    rcases Nat.lt_succ_iff_lt_or_eq.mp hx with h | h
    · have hidx : x * b + y < (grid a b f).length := by
        rw [grid_length]
        calc x * b + y < x * b + b := by omega
        _ = (x + 1) * b := (Nat.succ_mul x b).symm
        _ ≤ a * b := Nat.mul_le_mul_right b h
      rw [List.getD_append _ _ _ _ hidx]
      exact grid_getD a f d h hy
    · subst h
      have hidx : (grid x b f).length ≤ x * b + y := by
        rw [grid_length]
        exact Nat.le_add_right _ _
      rw [List.getD_append_right _ _ _ _ hidx, grid_length, Nat.add_sub_cancel_left]
      exact rangeMap_getD (f x) hy d

lemma laneVector_getD (keys : List (List Nat)) {LANE_SIZE : Nat} (lane_idx p : Nat)
    {i : Nat} (hi : i < LANE_SIZE) :
    (laneVector keys LANE_SIZE lane_idx p).getD i 0 =
      match keys[lane_idx * LANE_SIZE + i]? with
      | some k => charAt k p
      | none => 0 := by
  unfold laneVector
  exact rangeMap_getD _ hi 0

/-! ### The `min_by_key` model -/

lemma minByFirst_cons_isSome (p : Nat × Nat) (l : List (Nat × Nat)) :
    (minByFirst (p :: l)).isSome := by
  unfold minByFirst
  rcases h : minByFirst l with _ | q
  · rfl
  · by_cases hq : q.2 < p.2 <;> simp [hq]

lemma minByFirst_eq_none_iff (l : List (Nat × Nat)) : minByFirst l = none ↔ l = [] := by
  cases l with
  | nil => simp [minByFirst]
  | cons p rest =>
    have := minByFirst_cons_isSome p rest
    constructor
    · intro h
      rw [h] at this
      cases this
    · intro h
      cases h

lemma minByFirst_spec : ∀ (l : List (Nat × Nat)) (q : Nat × Nat), minByFirst l = some q →
    q ∈ l ∧ ∀ p ∈ l, q.2 ≤ p.2
  | [], q, h => by cases h
  | p :: rest, q, h => by
    unfold minByFirst at h
    rcases hrest : minByFirst rest with _ | r
    · rw [hrest] at h
      cases h
      have hrnil : rest = [] := (minByFirst_eq_none_iff rest).mp hrest
      subst hrnil
      exact ⟨List.mem_cons_self _ _, by simp⟩
    · rw [hrest] at h
      obtain ⟨hmem, hmin⟩ := minByFirst_spec rest r hrest
      have h' : (if r.2 < p.2 then some r else some p) = some q := h
      by_cases hlt : r.2 < p.2
      · rw [if_pos hlt] at h'
        cases h'
        refine ⟨List.mem_cons_of_mem p hmem, ?_⟩
        intro x hx
        rcases List.mem_cons.mp hx with rfl | hx
        · exact Nat.le_of_lt hlt
        · exact hmin x hx
      · rw [if_neg hlt] at h'
        cases h'
        refine ⟨List.mem_cons_self _ _, ?_⟩
        intro x hx
        rcases List.mem_cons.mp hx with rfl | hx
        · exact Nat.le_refl _
        · exact Nat.le_trans (Nat.le_of_not_lt hlt) (hmin x hx)

lemma argminFirst_eq_none_iff (l : List Nat) : argminFirst l = none ↔ l = [] := by
  unfold argminFirst
  rw [Option.map_eq_none', minByFirst_eq_none_iff]
  cases l <;> simp

lemma argminFirst_spec (l : List Nat) (best : Nat) (h : argminFirst l = some best) :
    best < l.length ∧ ∀ j, j < l.length → l.getD best 0 ≤ l.getD j 0 := by
  unfold argminFirst at h
  rcases hmb : minByFirst l.enum with _ | q
  · rw [hmb] at h; cases h
  · rw [hmb] at h
    cases h
    obtain ⟨hmem, hmin⟩ := minByFirst_spec l.enum q hmb
    have hq : l[q.1]? = some q.2 := by
      rw [← List.mem_enum_iff_getElem?]
      exact hmem
    have hlt : q.1 < l.length := by
      by_contra hcon
      rw [List.getElem?_eq_none (Nat.le_of_not_lt hcon)] at hq
      cases hq
    refine ⟨hlt, ?_⟩
    intro j hj
    have hj' : l[j]? = some l[j] := List.getElem?_eq_getElem hj
    have hjmem : (j, l[j]) ∈ l.enum := List.mem_enum_iff_getElem?.mpr hj'
    have := hmin (j, l[j]) hjmem
    rw [List.getD_eq_getElem?_getD, List.getD_eq_getElem?_getD, hq, hj']
    exact this

/-! ### Byte tuples at the chosen positions, and the scoring model -/

lemma map_eq_map_iff {α β : Type} (f g : α → β) :
    ∀ l : List α, l.map f = l.map g ↔ ∀ x ∈ l, f x = g x
  | [] => by simp
  | x :: xs => by
    simp only [List.map_cons, List.cons_eq_cons, List.forall_mem_cons, map_eq_map_iff f g xs]

lemma tester_eq_true_iff (P : List Nat) (k1 k2 : List Nat) :
    (P.foldl (fun t c => t && (charAt k1 c == charAt k2 c)) true = true) ↔
      keyTuple P k1 = keyTuple P k2 := by
  rw [foldl_and_eq_all, Bool.true_and, List.all_eq_true, keyTuple, keyTuple,
    map_eq_map_iff]
  constructor
  · intro h x hx
    exact beq_iff_eq.mp (h x hx)
  · intro h x hx
    exact beq_iff_eq.mpr (h x hx)

lemma two_le_count_true : ∀ (tests : List Bool) (i j : Nat), i ≠ j →
    tests[i]? = some true → tests[j]? = some true → 2 ≤ tests.count true
  | [], i, j, _, hi, _ => by cases hi
  | b :: rest, i, j, hij, hi, hj => by
    match i, j with
    | 0, 0 => exact absurd rfl hij
    | 0, j + 1 =>
      rw [List.getElem?_cons_zero] at hi
      cases hi
      rw [List.getElem?_cons_succ] at hj
      have : true ∈ rest := List.getElem?_mem hj
      have h1 : 1 ≤ rest.count true := List.count_pos_iff.mpr this
      rw [List.count_cons_self]
      omega
    | i + 1, 0 =>
      rw [List.getElem?_cons_zero] at hj
      cases hj
      rw [List.getElem?_cons_succ] at hi
      have : true ∈ rest := List.getElem?_mem hi
      have h1 : 1 ≤ rest.count true := List.count_pos_iff.mpr this
      rw [List.count_cons_self]
      omega
    | i + 1, j + 1 =>
      rw [List.getElem?_cons_succ] at hi
      rw [List.getElem?_cons_succ] at hj
      have h2 := two_le_count_true rest i j (by omega) hi hj
      rw [List.count_cons]
      omega

lemma getD_mem_of_lt {α : Type} (l : List α) (n : Nat) (d : α) (h : n < l.length) :
    l.getD n d ∈ l := by
  rw [List.getD_eq_getElem?_getD, List.getElem?_eq_getElem h]
  exact List.getElem_mem h

lemma getD_eq_getElem_of_lt {α : Type} (l : List α) (n : Nat) (d : α) (h : n < l.length) :
    l.getD n d = l[n] := by
  rw [List.getD_eq_getElem?_getD, List.getElem?_eq_getElem h]
  rfl

/-- A pair of distinct entries whose byte tuples on `P` coincide forces every
key score along `P` to be positive; conversely a solved position list makes
the tuples of distinct entries distinct. -/
lemma solved_tuples_distinct (keys : List (List Nat)) (P : List Nat)
    (hsolved : ∀ k ∈ keys, keyScore keys P k = 0)
    {i j : Nat} (hi : i < keys.length) (hj : j < keys.length) (hij : i ≠ j) :
    keyTuple P (keys.getD i []) ≠ keyTuple P (keys.getD j []) := by
  intro heq
  have hkmem : keys.getD i [] ∈ keys := getD_mem_of_lt keys i [] hi
  have hscore := hsolved _ hkmem
  unfold keyScore at hscore
  rw [roughly_log_2_eq_zero_iff] at hscore
  set tester : List Nat → Bool := fun k_other =>
    P.foldl (fun t char_idx_sub =>
      t && (charAt (keys.getD i []) char_idx_sub == charAt k_other char_idx_sub)) true
    with htester
  have hcount : (keys.map tester).count true - 1 = 0 := hscore
  have hitest : (keys.map tester)[i]? = some true := by
    rw [List.getElem?_map, List.getElem?_eq_getElem hi, Option.map_some']
    have : tester keys[i] = true := by
      rw [htester, getD_eq_getElem_of_lt keys i [] hi]
      exact (tester_eq_true_iff P keys[i] keys[i]).mpr rfl
    rw [this]
  have hjtest : (keys.map tester)[j]? = some true := by
    rw [List.getElem?_map, List.getElem?_eq_getElem hj, Option.map_some']
    have : tester keys[j] = true := by
      rw [htester]
      refine (tester_eq_true_iff P (keys.getD i []) keys[j]).mpr ?_
      rw [← getD_eq_getElem_of_lt keys j [] hj]
      exact heq
    rw [this]
  have htwo := two_le_count_true (keys.map tester) i j hij hitest hjtest
  omega

/-- Inversion of a successful run of the greedy selection loop: the final
position list extends the initial one by at least one and at most `fuel`
entries, and its last appended candidate scored 0, so every key score along
the final list vanishes. -/
lemma selectPositions_solved (keys : List (List Nat)) (max_len : Nat) :
    ∀ (fuel : Nat) (positions P : List Nat),
      selectPositions keys max_len fuel positions = .solved P →
      (∀ k ∈ keys, keyScore keys P k = 0) ∧
      positions.length < P.length ∧ P.length ≤ positions.length + fuel := by
  intro fuel
  induction fuel with
  | zero => intro positions P h; simp [selectPositions] at h
  | succ fuel ih =>
    intro positions P h
    unfold selectPositions at h
    rcases hargmin : argminFirst (positionScores keys positions max_len) with _ | best
    · rw [hargmin] at h
      cases h
    · rw [hargmin] at h
      have h' : (if (positionScores keys positions max_len).getD best 0 = 0
          then SelOutcome.solved (positions ++ [best])
          else selectPositions keys max_len fuel (positions ++ [best])) = .solved P := h
      by_cases hzero : (positionScores keys positions max_len).getD best 0 = 0
      · rw [if_pos hzero] at h'
        cases h'
        obtain ⟨hbest_lt, _⟩ := argminFirst_spec _ _ hargmin
        rw [show (positionScores keys positions max_len).length = max_len by
          simp [positionScores]] at hbest_lt
        rw [show (positionScores keys positions max_len).getD best 0 =
            (if positions.contains best then usizeMax
             else (keys.map (keyScore keys (positions ++ [best]))).sum) from
          rangeMap_getD _ hbest_lt 0] at hzero
        by_cases hcont : positions.contains best
        · rw [if_pos hcont] at hzero
          exact absurd hzero (by norm_num [usizeMax])
        · rw [if_neg hcont] at hzero
          refine ⟨?_, by simp, by simp⟩
          intro k hk
          have := (List.sum_eq_zero_iff).mp hzero
          exact this _ (List.mem_map_of_mem _ hk)
      · rw [if_neg hzero] at h'
        obtain ⟨hall, hlt, hle⟩ := ih (positions ++ [best]) P h'
        rw [List.length_append, List.length_singleton] at hlt hle
        exact ⟨hall, by omega, by omega⟩

/-- The selection loop panics exactly when it runs at least one iteration
over an empty candidate range (`max_len = 0`). -/
lemma selectPositions_panicked_iff (keys : List (List Nat)) (max_len : Nat) :
    ∀ (fuel : Nat) (positions : List Nat),
      selectPositions keys max_len fuel positions = .panicked ↔
        (max_len = 0 ∧ fuel ≠ 0) := by
  intro fuel
  induction fuel with
  | zero => intro positions; simp [selectPositions]
  | succ fuel ih =>
    intro positions
    unfold selectPositions
    rcases hargmin : argminFirst (positionScores keys positions max_len) with _ | best
    · have : positionScores keys positions max_len = [] :=
        (argminFirst_eq_none_iff _).mp hargmin
      have hml : max_len = 0 := by
        have := congrArg List.length this
        simpa [positionScores] using this
      simp [hml]
    · have hne : positionScores keys positions max_len ≠ [] := by
        intro hnil
        rw [(argminFirst_eq_none_iff _).mpr hnil] at hargmin
        cases hargmin
      have hml : max_len ≠ 0 := by
        intro h0
        exact hne (by simp [positionScores, h0])
      by_cases hzero : (positionScores keys positions max_len).getD best 0 = 0
      · simp only [if_pos hzero]
        constructor
        · intro h; cases h
        · intro ⟨h, _⟩; exact absurd h hml
      · simp only [if_neg hzero]
        rw [ih (positions ++ [best])]
        constructor
        · intro ⟨h, _⟩; exact absurd h hml
        · intro ⟨h, _⟩; exact absurd h hml

/-! ### Inversion of the build phase -/

@[simp] lemma keysOf_length {T : Type} (kvs : List (List Nat × T)) :
    (keysOf kvs).length = kvs.length := List.length_map kvs Prod.fst

@[simp] lemma mkMap_key_vals {T : Type} (MAX LS : Nat) (kvs : List (List Nat × T))
    (P : List Nat) : (mkMap MAX LS kvs P).key_vals = kvs := rfl

@[simp] lemma mkMap_LANE_SIZE {T : Type} (MAX LS : Nat) (kvs : List (List Nat × T))
    (P : List Nat) : (mkMap MAX LS kvs P).LANE_SIZE = LS := rfl

@[simp] lemma mkMap_MAX_LANES {T : Type} (MAX LS : Nat) (kvs : List (List Nat × T))
    (P : List Nat) : (mkMap MAX LS kvs P).MAX_LANES = MAX := rfl

@[simp] lemma mkMap_n_chars {T : Type} (MAX LS : Nat) (kvs : List (List Nat × T))
    (P : List Nat) : (mkMap MAX LS kvs P).n_chars = P.length := rfl

@[simp] lemma mkMap_n_lanes {T : Type} (MAX LS : Nat) (kvs : List (List Nat × T))
    (P : List Nat) :
    (mkMap MAX LS kvs P).n_lanes_of_entities = nLanesOf kvs.length LS := rfl

@[simp] lemma mkMap_char_positions {T : Type} (MAX LS : Nat) (kvs : List (List Nat × T))
    (P : List Nat) :
    (mkMap MAX LS kvs P).char_positions =
      grid (nLanesOf kvs.length LS) P.length (fun _ scan => P.getD scan 0) := rfl

@[simp] lemma mkMap_indexes {T : Type} (MAX LS : Nat) (kvs : List (List Nat × T))
    (P : List Nat) :
    (mkMap MAX LS kvs P).indexes =
      grid (nLanesOf kvs.length LS) P.length
        (fun lane scan => laneVector (keysOf kvs) LS lane (P.getD scan 0)) := rfl

@[simp] lemma mkMap_n_valid {T : Type} (MAX LS : Nat) (kvs : List (List Nat × T))
    (P : List Nat) :
    (mkMap MAX LS kvs P).n_valid =
      grid (nLanesOf kvs.length LS) P.length
        (fun lane _ => nValidOf kvs.length LS lane) := rfl

/-- Inversion of a successful `try_from`: the two guards passed and the
selector solved, the map being the built layout. -/
lemma try_from_ok_elim {T : Type} {MAX LS : Nat} {kvs : List (List Nat × T)}
    {m : SimdPerfectScanMap T} (h : try_from MAX LS kvs = .ok m) :
    kvs.length ≠ 0 ∧ kvs.length ≤ MAX * LS ∧
      ∃ P, selectPositions (keysOf kvs) (maxLenOf (keysOf kvs))
          (MAX / nLanesOf kvs.length LS) [] = .solved P ∧
        m = mkMap MAX LS kvs P := by
  unfold try_from at h
  by_cases h0 : kvs.length = 0
  · rw [if_pos h0] at h
    cases h
  · rw [if_neg h0] at h
    by_cases hcap : kvs.length > MAX * LS
    · rw [if_pos hcap] at h
      cases h
    · rw [if_neg hcap] at h
      refine ⟨h0, Nat.le_of_not_lt hcap, ?_⟩
      rcases hsel : selectPositions (keysOf kvs) (maxLenOf (keysOf kvs))
          (MAX / nLanesOf kvs.length LS) [] with P | _ | _
      · rw [hsel] at h
        have h' : BuildOutcome.ok (mkMap MAX LS kvs P) = .ok m := h
        cases h'
        exact ⟨P, rfl, rfl⟩
      · rw [hsel] at h
        exact absurd h (by intro hh; cases hh)
      · rw [hsel] at h
        exact absurd h (by intro hh; cases hh)

/-- Unique decomposition of a global entry index into lane group and slot. -/
lemma lane_slot_decompose {LS g1 i1 g2 i2 : Nat} (hi1 : i1 < LS) (hi2 : i2 < LS)
    (h : g1 * LS + i1 = g2 * LS + i2) : g1 = g2 ∧ i1 = i2 := by
  have hLS : 0 < LS := by omega
  have h1 : (g1 * LS + i1) / LS = g1 := by
    rw [Nat.mul_comm g1 LS, Nat.mul_add_div hLS, Nat.div_eq_of_lt hi1]
    omega
  have h2 : (g2 * LS + i2) / LS = g2 := by
    rw [Nat.mul_comm g2 LS, Nat.mul_add_div hLS, Nat.div_eq_of_lt hi2]
    omega
  have hg : g1 = g2 := by rw [← h1, ← h2, h]
  refine ⟨hg, ?_⟩
  subst hg
  omega

lemma nValidOf_le (n LS g : Nat) : nValidOf n LS g ≤ LS := by
  unfold nValidOf
  have := Nat.min_le_right n (g * LS + LS)
  omega

lemma nValidOf_global_lt {n LS g i : Nat} (h : i < nValidOf n LS g) : g * LS + i < n := by
  unfold nValidOf at h
  have := Nat.min_le_left n (g * LS + LS)
  omega

lemma forall_range_getD_iff (P : List Nat) (f : Nat → Prop) :
    (∀ s ∈ List.range P.length, f (P.getD s 0)) ↔ ∀ p ∈ P, f p := by
  constructor
  · intro h p hp
    obtain ⟨s, hlt, heq⟩ := List.getElem_of_mem hp
    have := h s (List.mem_range.mpr hlt)
    rwa [getD_eq_getElem_of_lt _ _ _ hlt, heq] at this
  · intro h s hs
    exact h _ (getD_mem_of_lt _ _ _ (List.mem_range.mp hs))

/-! ### Analysis of the lookup scan on a constructed map -/

/-- On a built map, the per-slot match state is `LANE_SIZE - i` when every
scan position agrees and `0` otherwise. -/
lemma laneSlotMatched_mkMap {T : Type} (MAX LS : Nat) (kvs : List (List Nat × T))
    (P : List Nat) (q : List Nat) {g : Nat} (i : Nat)
    (hg : g < nLanesOf kvs.length LS) :
    laneSlotMatched (mkMap MAX LS kvs P) q g i =
      if ∀ s ∈ List.range P.length,
          (laneVector (keysOf kvs) LS g (P.getD s 0)).getD i 0 =
            queryChar q (P.getD s 0)
      then LS - i else 0 := by
  have hfold := foldl_ite_zero
    (fun s : Nat =>
      ((mkMap MAX LS kvs P).indexes.getD (g * P.length + s) []).getD i 0 =
        queryChar q ((mkMap MAX LS kvs P).char_positions.getD (g * P.length + s) 0))
    (List.range P.length) (LS - i)
  have h1 : laneSlotMatched (mkMap MAX LS kvs P) q g i =
      if ∀ s ∈ List.range P.length,
          ((mkMap MAX LS kvs P).indexes.getD (g * P.length + s) []).getD i 0 =
            queryChar q ((mkMap MAX LS kvs P).char_positions.getD (g * P.length + s) 0)
      then LS - i else 0 := hfold
  rw [h1]
  refine if_congr ?_ rfl rfl
  constructor
  · intro hall s hs
    have hs' := List.mem_range.mp hs
    have := hall s hs
    rwa [mkMap_indexes, mkMap_char_positions, grid_getD _ _ _ hg hs',
      grid_getD _ _ _ hg hs'] at this
  · intro hall s hs
    have hs' := List.mem_range.mp hs
    rw [mkMap_indexes, mkMap_char_positions, grid_getD _ _ _ hg hs',
      grid_getD _ _ _ hg hs']
    exact hall s hs

/-- A valid slot survives the scan exactly when its entry's byte tuple at
the chosen positions equals the query's byte tuple. -/
lemma validSlot_survives_iff {T : Type} (MAX LS : Nat) (kvs : List (List Nat × T))
    (P : List Nat) (q : List Nat) {g i : Nat}
    (hg : g < nLanesOf kvs.length LS) (hi : i < LS) (he : g * LS + i < kvs.length) :
    laneSlotMatched (mkMap MAX LS kvs P) q g i ≠ 0 ↔
      keyTuple P ((keysOf kvs).getD (g * LS + i) []) = P.map (queryChar q) := by
  rw [laneSlotMatched_mkMap MAX LS kvs P q i hg]
  have he' : g * LS + i < (keysOf kvs).length := by rwa [keysOf_length]
  have hvec : ∀ s : Nat,
      (laneVector (keysOf kvs) LS g (P.getD s 0)).getD i 0 =
        charAt ((keysOf kvs).getD (g * LS + i) []) (P.getD s 0) := by
    intro s
    rw [laneVector_getD (keysOf kvs) g (P.getD s 0) hi,
      List.getElem?_eq_getElem he', getD_eq_getElem_of_lt _ _ _ he']
  constructor
  · intro hne
    by_cases hcond : ∀ s ∈ List.range P.length,
        (laneVector (keysOf kvs) LS g (P.getD s 0)).getD i 0 =
          queryChar q (P.getD s 0)
    · have hall : ∀ p ∈ P, charAt ((keysOf kvs).getD (g * LS + i) []) p = queryChar q p := by
        rw [← forall_range_getD_iff]
        intro s hs
        rw [← hvec s]
        exact hcond s hs
      unfold keyTuple
      exact (map_eq_map_iff _ _ P).mpr hall
    · rw [if_neg hcond] at hne
      exact absurd rfl hne
  · intro htup
    have hall : ∀ p ∈ P, charAt ((keysOf kvs).getD (g * LS + i) []) p = queryChar q p :=
      (map_eq_map_iff _ _ P).mp htup
    have hcond : ∀ s ∈ List.range P.length,
        (laneVector (keysOf kvs) LS g (P.getD s 0)).getD i 0 =
          queryChar q (P.getD s 0) := by
      intro s hs
      rw [hvec s]
      exact hall _ (getD_mem_of_lt _ _ _ (List.mem_range.mp hs))
    rw [if_pos hcond]
    omega

/-- On a solved map at most one valid slot, across all lane groups, survives
the scan. -/
lemma valid_survivor_unique {T : Type} (MAX LS : Nat) (kvs : List (List Nat × T))
    (P : List Nat)
    (hsolved : ∀ k ∈ keysOf kvs, keyScore (keysOf kvs) P k = 0)
    (q : List Nat) {g1 i1 g2 i2 : Nat}
    (hg1 : g1 < nLanesOf kvs.length LS) (hi1 : i1 < LS) (he1 : g1 * LS + i1 < kvs.length)
    (hs1 : laneSlotMatched (mkMap MAX LS kvs P) q g1 i1 ≠ 0)
    (hg2 : g2 < nLanesOf kvs.length LS) (hi2 : i2 < LS) (he2 : g2 * LS + i2 < kvs.length)
    (hs2 : laneSlotMatched (mkMap MAX LS kvs P) q g2 i2 ≠ 0) :
    g1 = g2 ∧ i1 = i2 := by
  have h1 := (validSlot_survives_iff MAX LS kvs P q hg1 hi1 he1).mp hs1
  have h2 := (validSlot_survives_iff MAX LS kvs P q hg2 hi2 he2).mp hs2
  by_cases he : g1 * LS + i1 = g2 * LS + i2
  · exact lane_slot_decompose hi1 hi2 he
  · exact absurd (h1.trans h2.symm)
      (solved_tuples_distinct (keysOf kvs) P hsolved
        (by rwa [keysOf_length]) (by rwa [keysOf_length]) he)

/-- A nonzero lane increment exposes a valid surviving slot at index
`laneMatched`, and records the increment's exact value. -/
lemma laneIncrement_nonzero_elim {T : Type} (MAX LS : Nat) (kvs : List (List Nat × T))
    (P : List Nat) (q : List Nat) {g : Nat}
    (hg : g < nLanesOf kvs.length LS) (hnc : 0 < P.length)
    (h : laneIncrement (mkMap MAX LS kvs P) q g ≠ 0) :
    laneMatched (mkMap MAX LS kvs P) q g ≠ 0 ∧
      laneMatched (mkMap MAX LS kvs P) q g < nValidOf kvs.length LS g ∧
      laneSlotMatched (mkMap MAX LS kvs P) q g (laneMatched (mkMap MAX LS kvs P) q g) ≠ 0 ∧
      laneIncrement (mkMap MAX LS kvs P) q g =
        laneMatched (mkMap MAX LS kvs P) q g + g * LS := by
  have hnv : (mkMap MAX LS kvs P).n_valid.getD
      (g * (mkMap MAX LS kvs P).n_chars + (mkMap MAX LS kvs P).n_chars - 1) 0 =
      nValidOf kvs.length LS g := by
    rw [mkMap_n_valid, mkMap_n_chars]
    rw [show g * P.length + P.length - 1 = g * P.length + (P.length - 1) by omega]
    exact grid_getD _ _ _ hg (by omega)
  have hcond : laneMatched (mkMap MAX LS kvs P) q g < nValidOf kvs.length LS g ∧
      laneMatched (mkMap MAX LS kvs P) q g ≠ 0 := by
    by_contra hcon
    apply h
    unfold laneIncrement
    rw [hnv]
    exact if_neg hcon
  have hval : laneIncrement (mkMap MAX LS kvs P) q g =
      laneMatched (mkMap MAX LS kvs P) q g + g * (mkMap MAX LS kvs P).LANE_SIZE := by
    unfold laneIncrement
    rw [hnv]
    exact if_pos hcond
  refine ⟨hcond.2, hcond.1, ?_, by rwa [mkMap_LANE_SIZE] at hval⟩
  set M := ((List.range (mkMap MAX LS kvs P).LANE_SIZE).map
    (fun i => laneSlotMatched (mkMap MAX LS kvs P) q g i)).foldl max 0 with hM
  have hmatched : laneMatched (mkMap MAX LS kvs P) q g =
      (mkMap MAX LS kvs P).LANE_SIZE - M := rfl
  have hMne : M ≠ 0 := by
    intro h0
    rw [hmatched, h0, Nat.sub_zero, mkMap_LANE_SIZE] at hcond
    have := nValidOf_le kvs.length LS g
    omega
  rcases foldl_max_eq_init_or_mem _ 0 with h0 | hmem
  · rw [← hM] at h0
    exact absurd h0 hMne
  · rw [← hM] at hmem
    obtain ⟨i, hi_mem, hi_eq⟩ := List.mem_map.mp hmem
    have hi_lt : i < (mkMap MAX LS kvs P).LANE_SIZE := List.mem_range.mp hi_mem
    have hi_lt' : i < LS := by rwa [mkMap_LANE_SIZE] at hi_lt
    have hslot := laneSlotMatched_mkMap MAX LS kvs P q i hg
    rw [hslot] at hi_eq
    by_cases hc : ∀ s ∈ List.range P.length,
        (laneVector (keysOf kvs) LS g (P.getD s 0)).getD i 0 = queryChar q (P.getD s 0)
    · rw [if_pos hc] at hi_eq
      have hieq : laneMatched (mkMap MAX LS kvs P) q g = i := by
        rw [hmatched, ← hi_eq, mkMap_LANE_SIZE]
        omega
      rw [hieq, hslot, if_pos hc, hi_eq]
      exact hMne
    · rw [if_neg hc] at hi_eq
      exact absurd hi_eq.symm hMne

lemma matchedIdx_eq_sum {T : Type} (m : SimdPerfectScanMap T) (q : List Nat) :
    matchedIdx m q =
      ((List.range m.n_lanes_of_entities).map (laneIncrement m q)).sum := by
  unfold matchedIdx
  rw [foldl_add_eq_sum]
  omega

lemma sum_map_range_cases (f : Nat → Nat) : ∀ N : Nat,
    (∀ g1 g2, g1 < N → g2 < N → f g1 ≠ 0 → f g2 ≠ 0 → g1 = g2) →
    ((List.range N).map f).sum = 0 ∨ ∃ g, g < N ∧ ((List.range N).map f).sum = f g
  | 0, _ => Or.inl (by simp)
  | N + 1, h => by
    rw [List.range_succ, List.map_append, List.sum_append]
    by_cases hN : f N = 0
    · rcases sum_map_range_cases f N
        (fun g1 g2 h1 h2 => h g1 g2 (by omega) (by omega)) with h0 | ⟨g, hg, hsum⟩
      · left
        simp [h0, hN]
      · right
        exact ⟨g, by omega, by simp [hsum, hN]⟩
    · have hall : ∀ x ∈ (List.range N).map f, x = 0 := by
        intro x hx
        obtain ⟨g, hg_mem, rfl⟩ := List.mem_map.mp hx
        have hg := List.mem_range.mp hg_mem
        by_contra hne
        exact absurd (h g N (by omega) (by omega) hne hN) (by omega)
      rw [List.sum_eq_zero hall]
      right
      exact ⟨N, by omega, by simp⟩

/-- The used entry of `n_valid` for lane `g` on a built map. -/
lemma laneNValid_mkMap {T : Type} (MAX LS : Nat) (kvs : List (List Nat × T))
    (P : List Nat) {g : Nat} (hg : g < nLanesOf kvs.length LS) (hnc : 0 < P.length) :
    (mkMap MAX LS kvs P).n_valid.getD
        (g * (mkMap MAX LS kvs P).n_chars + (mkMap MAX LS kvs P).n_chars - 1) 0 =
      nValidOf kvs.length LS g := by
  rw [mkMap_n_valid, mkMap_n_chars]
  rw [show g * P.length + P.length - 1 = g * P.length + (P.length - 1) by omega]
  exact grid_getD _ _ _ hg (by omega)

/-- The candidate index computed by the scan of a built, solved map is
always in range of the entry list. -/
lemma matchedIdx_lt {T : Type} (MAX LS : Nat) (kvs : List (List Nat × T)) (P : List Nat)
    (hsolved : ∀ k ∈ keysOf kvs, keyScore (keysOf kvs) P k = 0)
    (hnc : 0 < P.length) (h0 : kvs.length ≠ 0) (q : List Nat) :
    matchedIdx (mkMap MAX LS kvs P) q < kvs.length := by
  have huniq : ∀ g1 g2, g1 < nLanesOf kvs.length LS → g2 < nLanesOf kvs.length LS →
      laneIncrement (mkMap MAX LS kvs P) q g1 ≠ 0 →
      laneIncrement (mkMap MAX LS kvs P) q g2 ≠ 0 → g1 = g2 := by
    intro g1 g2 hg1 hg2 h1 h2
    obtain ⟨_, hm1lt, hs1, _⟩ := laneIncrement_nonzero_elim MAX LS kvs P q hg1 hnc h1
    obtain ⟨_, hm2lt, hs2, _⟩ := laneIncrement_nonzero_elim MAX LS kvs P q hg2 hnc h2
    exact (valid_survivor_unique MAX LS kvs P hsolved q hg1
      (Nat.lt_of_lt_of_le hm1lt (nValidOf_le _ _ _)) (nValidOf_global_lt hm1lt) hs1
      hg2 (Nat.lt_of_lt_of_le hm2lt (nValidOf_le _ _ _)) (nValidOf_global_lt hm2lt) hs2).1
  rw [matchedIdx_eq_sum, mkMap_n_lanes]
  rcases sum_map_range_cases _ _ huniq with hz | ⟨g, hg, hsum⟩
  · rw [hz]
    omega
  · rw [hsum]
    by_cases hzero : laneIncrement (mkMap MAX LS kvs P) q g = 0
    · rw [hzero]
      omega
    · obtain ⟨_, hmlt, _, hval⟩ := laneIncrement_nonzero_elim MAX LS kvs P q hg hnc hzero
      rw [hval]
      have := nValidOf_global_lt hmlt
      omega

/-! ### Classification of the build outcomes -/

lemma try_from_err_payload {T : Type} (MAX LS : Nat) (kvs : List (List Nat × T))
    (e : BuildErr) (kvs2 : List (List Nat × T))
    (h : try_from MAX LS kvs = .err e kvs2) : kvs2 = kvs := by
  unfold try_from at h
  by_cases h0 : kvs.length = 0
  · rw [if_pos h0] at h
    cases h
    rfl
  · rw [if_neg h0] at h
    by_cases hcap : kvs.length > MAX * LS
    · rw [if_pos hcap] at h
      cases h
      rfl
    · rw [if_neg hcap] at h
      rcases hsel : selectPositions (keysOf kvs) (maxLenOf (keysOf kvs))
          (MAX / nLanesOf kvs.length LS) [] with P | _ | _ <;> rw [hsel] at h
      · exact absurd h (by intro hh; cases hh)
      · cases h
        rfl
      · exact absurd h (by intro hh; cases hh)

lemma maxLenOf_eq_zero_iff (keys : List (List Nat)) :
    maxLenOf keys = 0 ↔ ∀ k ∈ keys, k = ([] : List Nat) := by
  unfold maxLenOf MAX_KEY_SEARCH_LEN
  rw [Nat.min_eq_zero_iff]
  constructor
  · intro h k hk
    rcases h with h | h
    · have := (foldl_max_zero_eq_zero_iff _).mp h k.length
        (List.mem_map_of_mem _ hk)
      exact List.length_eq_zero.mp this
    · omega
  · intro h
    left
    rw [foldl_max_zero_eq_zero_iff]
    intro x hx
    obtain ⟨k, hk, rfl⟩ := List.mem_map.mp hx
    rw [h k hk]
    rfl

lemma keysOf_forall_iff {T : Type} (kvs : List (List Nat × T)) (p : List Nat → Prop) :
    (∀ k ∈ keysOf kvs, p k) ↔ ∀ kv ∈ kvs, p kv.1 := by
  unfold keysOf
  constructor
  · intro h kv hkv
    exact h _ (List.mem_map_of_mem _ hkv)
  · intro h k hk
    obtain ⟨kv, hkv, rfl⟩ := List.mem_map.mp hk
    exact h kv hkv

/-- The iteration budget `MAX_LANES / n_lanes_of_entities` is at least one
whenever the two construction guards have passed. -/
lemma fuel_pos {MAX LS n : Nat} (h0 : n ≠ 0) (hcap : n ≤ MAX * LS) :
    0 < MAX / nLanesOf n LS := by
  rcases Nat.eq_zero_or_pos LS with rfl | hLS
  · simp at hcap
    omega
  have h2 : nLanesOf n LS ≤ MAX := by
    unfold nLanesOf
    have hle : n + LS - 1 ≤ LS * MAX + (LS - 1) := by
      rw [Nat.mul_comm]
      omega
    calc (n + LS - 1) / LS ≤ (LS * MAX + (LS - 1)) / LS := Nat.div_le_div_right hle
    _ = MAX + (LS - 1) / LS := Nat.mul_add_div hLS MAX (LS - 1)
    _ = MAX := by
      rw [Nat.div_eq_of_lt (by omega)]
      omega
  have h1 : 0 < nLanesOf n LS := Nat.div_pos (by omega) hLS
  exact Nat.div_pos h2 h1

/-- A duplicated key makes every run of the greedy selector end without a
solution: no position list separates the two copies, so no score reaches
zero. -/
lemma dup_never_solved (keys : List (List Nat)) {i j : Nat} (hi : i < keys.length)
    (hj : j < keys.length) (hij : i ≠ j) (hdup : keys.getD i [] = keys.getD j []) :
    ∀ max_len fuel positions P, selectPositions keys max_len fuel positions ≠ .solved P := by
  intro max_len fuel positions P hsel
  obtain ⟨hall, _, _⟩ := selectPositions_solved keys max_len fuel positions P hsel
  exact absurd (by rw [hdup] : keyTuple P (keys.getD i []) = keyTuple P (keys.getD j []))
    (solved_tuples_distinct keys P hall hi hj hij)

/-- With a nonempty, in-capacity, all-empty-keys input the build panics:
`max_len = 0` empties the score vector on the first of the at-least-one
iterations. -/
lemma try_from_all_empty_panicked {T : Type} (MAX LS : Nat)
    (kvs : List (List Nat × T)) (h0 : kvs.length ≠ 0) (hcap : kvs.length ≤ MAX * LS)
    (hemp : ∀ kv ∈ kvs, kv.1 = ([] : List Nat)) : try_from MAX LS kvs = .panicked := by
  unfold try_from
  rw [if_neg h0, if_neg (by omega)]
  rw [(selectPositions_panicked_iff _ _ _ _).mpr
    ⟨(maxLenOf_eq_zero_iff _).mpr ((keysOf_forall_iff kvs _).mpr hemp), by
      have := fuel_pos h0 hcap
      omega⟩]

/-! ### Claim theorems -/

/-- C1: soundness of lookup.  On every successfully constructed map and
every query, `get` returns `some v` only when `(query, v)` is one of the
stored entries (the key byte-identical to the query, `v` the value paired
with it), and returns `none` whenever no stored key is byte-identical to
the query — a wrong value is never returned. -/
theorem C1_get_sound {T : Type} (MAX LS : Nat) (kvs : List (List Nat × T))
    (m : SimdPerfectScanMap T) (h : try_from MAX LS kvs = .ok m) (query : List Nat) :
    (∀ v, m.get query = some v → (query, v) ∈ kvs) ∧
    ((∀ kv ∈ kvs, kv.1 ≠ query) → m.get query = none) := by
  obtain ⟨h0, hcap, P, hsel, rfl⟩ := try_from_ok_elim h
  constructor
  · intro v hv
    unfold SimdPerfectScanMap.get at hv
    rcases hfound : (mkMap MAX LS kvs P).key_vals[matchedIdx (mkMap MAX LS kvs P) query]?
        with _ | found
    · rw [hfound] at hv
      have hv' : (none : Option T) = some v := hv
      cases hv'
    · rw [hfound] at hv
      have hv' : (if found.1 = query then some found.2 else none) = some v := hv
      by_cases hkey : found.1 = query
      · rw [if_pos hkey] at hv'
        cases hv'
        have hmem : found ∈ kvs := by
          rw [mkMap_key_vals] at hfound
          exact List.getElem?_mem hfound
        have heta : (query, found.2) = found := by
          rw [← hkey]
        rw [heta]
        exact hmem
      · rw [if_neg hkey] at hv'
        cases hv'
  · intro hnone
    unfold SimdPerfectScanMap.get
    rcases hfound : (mkMap MAX LS kvs P).key_vals[matchedIdx (mkMap MAX LS kvs P) query]?
        with _ | found
    · rfl
    · have hne : found.1 ≠ query := by
        apply hnone
        rw [mkMap_key_vals] at hfound
        exact List.getElem?_mem hfound
      exact if_neg hne

/-- C1 witness: on the concrete two-key map, a positive lookup pins the
stored pair and a fresh key yields `none`. -/
theorem C1_get_sound_witness :
    (( ([97] : List Nat), (1 : Nat)) ∈ exKvs) ∧ mEx.get [99] = none :=
  ⟨(C1_get_sound 4 2 exKvs mEx (by decide) [97]).1 1 (by decide),
   (C1_get_sound 4 2 exKvs mEx (by decide) [99]).2 (by decide)⟩

/-- C9: `iter` replays exactly the construction input, in order, and its
length agrees with `len`, which is the input length. -/
theorem C9_iter_len {T : Type} (MAX LS : Nat) (kvs : List (List Nat × T))
    (m : SimdPerfectScanMap T) (h : try_from MAX LS kvs = .ok m) :
    m.iter = kvs ∧ m.len = kvs.length ∧ m.iter.length = m.len := by
  obtain ⟨_, _, P, _, rfl⟩ := try_from_ok_elim h
  exact ⟨rfl, rfl, rfl⟩

/-- C9 witness: the concrete two-key map replays its input. -/
theorem C9_iter_len_witness :
    mEx.iter = exKvs ∧ mEx.len = exKvs.length ∧ mEx.iter.length = mEx.len :=
  C9_iter_len 4 2 exKvs mEx (by decide)

/-- C3 (amended): on every successfully constructed map and every query, at
most one slot *inside the valid range of its lane group* survives the full
per-position scan (padding slots beyond `n_valid` can also survive, see the
counterexample, but they never pass the `matched < n_valid` check); at most
one lane group contributes a nonzero increment; the final candidate index is
strictly below the number of stored entries, so the unchecked access
`key_vals[matched_idx]` is in range and `get` totally returns an
`Option`. -/
theorem C3_scan_uniqueness {T : Type} (MAX LS : Nat) (kvs : List (List Nat × T))
    (m : SimdPerfectScanMap T) (h : try_from MAX LS kvs = .ok m) (query : List Nat) :
    (∀ g1 i1 g2 i2, validSlotSurvives m query g1 i1 → validSlotSurvives m query g2 i2 →
      g1 = g2 ∧ i1 = i2) ∧
    (∀ g1 g2, g1 < m.n_lanes_of_entities → g2 < m.n_lanes_of_entities →
      laneIncrement m query g1 ≠ 0 → laneIncrement m query g2 ≠ 0 → g1 = g2) ∧
    matchedIdx m query < m.key_vals.length ∧
    (m.key_vals[matchedIdx m query]?).isSome := by
  obtain ⟨h0, hcap, P, hsel, rfl⟩ := try_from_ok_elim h
  obtain ⟨hsolved, hlt0, _⟩ := selectPositions_solved _ _ _ _ _ hsel
  have hnc : 0 < P.length := by simpa using hlt0
  refine ⟨?_, ?_, ?_, ?_⟩
  · rintro g1 i1 g2 i2 ⟨hg1, hv1, hs1⟩ ⟨hg2, hv2, hs2⟩
    rw [mkMap_n_lanes] at hg1 hg2
    rw [laneNValid_mkMap MAX LS kvs P hg1 hnc] at hv1
    rw [laneNValid_mkMap MAX LS kvs P hg2 hnc] at hv2
    exact valid_survivor_unique MAX LS kvs P hsolved query hg1
      (Nat.lt_of_lt_of_le hv1 (nValidOf_le _ _ _)) (nValidOf_global_lt hv1) hs1
      hg2 (Nat.lt_of_lt_of_le hv2 (nValidOf_le _ _ _)) (nValidOf_global_lt hv2) hs2
  · intro g1 g2 hg1 hg2 h1 h2
    rw [mkMap_n_lanes] at hg1 hg2
    obtain ⟨_, hm1lt, hs1, _⟩ := laneIncrement_nonzero_elim MAX LS kvs P query hg1 hnc h1
    obtain ⟨_, hm2lt, hs2, _⟩ := laneIncrement_nonzero_elim MAX LS kvs P query hg2 hnc h2
    exact (valid_survivor_unique MAX LS kvs P hsolved query hg1
      (Nat.lt_of_lt_of_le hm1lt (nValidOf_le _ _ _)) (nValidOf_global_lt hm1lt) hs1
      hg2 (Nat.lt_of_lt_of_le hm2lt (nValidOf_le _ _ _)) (nValidOf_global_lt hm2lt) hs2).1
  · rw [mkMap_key_vals]
    exact matchedIdx_lt MAX LS kvs P hsolved hnc h0 query
  · have hlt' := matchedIdx_lt MAX LS kvs P hsolved hnc h0 query
    rw [mkMap_key_vals, List.getElem?_eq_getElem hlt']
    rfl

/-- C3 witness: on the concrete two-key map the candidate index stays in
range for a stored key. -/
theorem C3_scan_uniqueness_witness : matchedIdx mEx [97] < mEx.key_vals.length :=
  (C3_scan_uniqueness 4 2 exKvs mEx (by decide) [97]).2.2.1

/-- C3 counterexample to the claim as stated: with keys `"a"`, `"b"` and
`LANE_SIZE = 4` the single lane group has two padding slots (indices 2 and
3); on the empty query the pad byte formula makes the compared byte 0, which
equals the `splat(0)` fill of the padding slots, so TWO distinct slots
survive the full per-position scan — "at most one slot across all lane
groups survives" is false when slots outside the valid range are counted. -/
theorem C3_counterexample :
    try_from 4 4 exKvs = .ok mExC3 ∧
    mExC3.LANE_SIZE = 4 ∧
    laneSlotMatched mExC3 [] 0 2 ≠ 0 ∧ laneSlotMatched mExC3 [] 0 3 ≠ 0 := by
  decide

/-- C5: the selection loop's budget.  A successfully constructed map has
`n_chars ≤ MAX_LANES / n_lanes_of_entities` (the loop runs at most that many
iterations, each appending one position), hence
`n_chars * n_lanes_of_entities ≤ MAX_LANES`; and when the budget is
exhausted with no candidate reaching score 0 (the selector returning its
unsolved outcome), `try_from` returns the unsolvable error instead of a
map. -/
theorem C5_budget {T : Type} (MAX LS : Nat) (kvs : List (List Nat × T)) :
    (∀ m, try_from MAX LS kvs = .ok m →
      m.n_chars ≤ MAX / m.n_lanes_of_entities ∧
      m.n_chars * m.n_lanes_of_entities ≤ MAX) ∧
    (kvs.length ≠ 0 → kvs.length ≤ MAX * LS →
      selectPositions (keysOf kvs) (maxLenOf (keysOf kvs))
          (MAX / nLanesOf kvs.length LS) [] = .unsolved →
      try_from MAX LS kvs = .err .unsolvable kvs) := by
  constructor
  · intro m h
    obtain ⟨h0, hcap, P, hsel, rfl⟩ := try_from_ok_elim h
    obtain ⟨_, hlt0, hle0⟩ := selectPositions_solved _ _ _ _ _ hsel
    simp only [List.length_nil, Nat.zero_add] at hlt0 hle0
    rw [mkMap_n_chars, mkMap_n_lanes]
    refine ⟨hle0, ?_⟩
    calc P.length * nLanesOf kvs.length LS
        ≤ MAX / nLanesOf kvs.length LS * nLanesOf kvs.length LS :=
          Nat.mul_le_mul_right _ hle0
    _ ≤ MAX := Nat.div_mul_le_self MAX _
  · intro h0 hcap hsel
    unfold try_from
    rw [if_neg h0, if_neg (by omega), hsel]

/-- C5 witness: the two-key map respects the budget, and the duplicate-key
input exhausts the budget and surfaces the unsolvable error. -/
theorem C5_budget_witness :
    mEx.n_chars * mEx.n_lanes_of_entities ≤ 4 ∧
    try_from 4 2 dupKvs = .err .unsolvable dupKvs :=
  ⟨((C5_budget 4 2 exKvs).1 mEx (by decide)).2,
   (C5_budget 4 2 dupKvs).2 (by decide) (by decide) (by decide)⟩

/-- The code's score of one key equals the ceiling log of the number of
keys indistinguishable from it (itself included). -/
lemma keyScore_eq_clog (keys : List (List Nat)) (P : List Nat) (k : List Nat)
    (hk : k ∈ keys) (hlen : keys.length < 2 ^ 64) :
    keyScore keys P k = Nat.clog 2 (indistCount keys P k) := by
  have hmapeq : keys.map (fun k_other =>
      P.foldl (fun t c => t && (charAt k c == charAt k_other c)) true) =
      keys.map (fun k2 => keyTuple P k == keyTuple P k2) := by
    apply List.map_congr_left
    intro k2 _
    apply Bool.coe_iff_coe.mp
    rw [tester_eq_true_iff P k k2, beq_iff_eq]
  have hcnt : (keys.map (fun k_other =>
      P.foldl (fun t c => t && (charAt k c == charAt k_other c)) true)).count true =
      indistCount keys P k := by
    rw [hmapeq, List.count_eq_countP, List.countP_map]
    unfold indistCount
    rw [← List.countP_eq_length_filter]
    simp only [Function.comp, beq_true]
    rfl
  have hone : 1 ≤ indistCount keys P k := by
    unfold indistCount
    have hkf : k ∈ keys.filter (fun k2 => keyTuple P k == keyTuple P k2) :=
      List.mem_filter.mpr ⟨hk, beq_self_eq_true _⟩
    have := List.length_pos.mpr (List.ne_nil_of_mem hkf)
    omega
  have hle : indistCount keys P k ≤ keys.length := by
    unfold indistCount
    exact List.length_filter_le _ _
  calc keyScore keys P k
      = roughly_log_2 ((keys.map (fun k_other =>
          P.foldl (fun t c => t && (charAt k c == charAt k_other c)) true)).count true
          - 1) := rfl
  _ = roughly_log_2 (indistCount keys P k - 1) := by rw [hcnt]
  _ = Nat.clog 2 (indistCount keys P k - 1 + 1) := roughly_log_2_eq_clog _ (by omega)
  _ = Nat.clog 2 (indistCount keys P k) := by rw [Nat.sub_add_cancel hone]

lemma positionScores_getD (keys : List (List Nat)) (positions : List Nat)
    {max_len i : Nat} (hi : i < max_len) :
    (positionScores keys positions max_len).getD i 0 =
      if positions.contains i then usizeMax
      else (keys.map (keyScore keys (positions ++ [i]))).sum := by
  unfold positionScores
  exact rangeMap_getD _ hi 0

/-- C6: uniform length-aware padding.  The code's wrapping pad byte equals
`(offset − length) mod 256`; the byte the selector and the layout builder
compare at an offset beyond a key's length is exactly that pad byte (and the
key's own byte in range); at lookup time the byte used at a tested offset is
the query's byte there, except that an out-of-range offset, or a literal
zero byte at an in-range offset, is replaced by the pad formula computed
from the query's own length. -/
theorem C6_padding :
    (∀ i len, padByte i len = padByteSpec i len) ∧
    (∀ (k : List Nat) (p : Nat), k.length ≤ p → charAt k p = padByteSpec p k.length) ∧
    (∀ (k : List Nat) (p : Nat), p < k.length → charAt k p = k.getD p 0) ∧
    (∀ (keys : List (List Nat)) (LS g p i : Nat), i < LS → g * LS + i < keys.length →
      (laneVector keys LS g p).getD i 0 = charAt (keys.getD (g * LS + i) []) p) ∧
    (∀ (q : List Nat) (p : Nat), p < q.length → q.getD p 0 ≠ 0 →
      queryChar q p = q.getD p 0) ∧
    (∀ (q : List Nat) (p : Nat), q.length ≤ p ∨ q.getD p 0 = 0 →
      queryChar q p = padByteSpec p q.length) := by
  have hpad : ∀ i len, padByte i len = padByteSpec i len := by
    intro i len
    unfold padByte padByteSpec
    rw [Int.emod_emod_of_dvd _ (by norm_num : (256 : Int) ∣ 2 ^ 64)]
  refine ⟨hpad, ?_, ?_, ?_, ?_, ?_⟩
  · intro k p hp
    unfold charAt
    rw [List.getElem?_eq_none hp]
    exact hpad p k.length
  · intro k p hp
    unfold charAt
    rw [List.getElem?_eq_getElem hp, getD_eq_getElem_of_lt k p 0 hp]
  · intro keys LS g p i hi he
    rw [laneVector_getD keys g p hi, List.getElem?_eq_getElem he,
      getD_eq_getElem_of_lt _ _ _ he]
  · intro q p hp hne
    have hq : (q[p]?).getD 0 = q.getD p 0 := by
      rw [List.getElem?_eq_getElem hp, getD_eq_getElem_of_lt q p 0 hp]
      rfl
    show (if (q[p]?).getD 0 = 0 then padByte p q.length else (q[p]?).getD 0) = q.getD p 0
    rw [hq, if_neg hne]
  · intro q p hp
    have hz : (q[p]?).getD 0 = 0 := by
      rcases hp with hp | hp
      · rw [List.getElem?_eq_none hp]
        rfl
      · rcases Nat.lt_or_ge p q.length with hlt | hge
        · rw [List.getElem?_eq_getElem hlt]
          rw [getD_eq_getElem_of_lt q p 0 hlt] at hp
          exact hp
        · rw [List.getElem?_eq_none hge]
          rfl
    show (if (q[p]?).getD 0 = 0 then padByte p q.length else (q[p]?).getD 0) =
      padByteSpec p q.length
    rw [if_pos hz]
    exact hpad p q.length

/-- C6 witness: concrete instances of every padding rule. -/
theorem C6_padding_witness :
    charAt [97] 3 = padByteSpec 3 1 ∧
    charAt [97, 98] 1 = ([97, 98] : List Nat).getD 1 0 ∧
    queryChar [97] 0 = ([97] : List Nat).getD 0 0 ∧
    queryChar [97] 2 = padByteSpec 2 1 :=
  ⟨C6_padding.2.1 [97] 3 (by decide),
   C6_padding.2.2.1 [97, 98] 1 (by decide),
   C6_padding.2.2.2.2.1 [97] 0 (by decide) (by decide),
   C6_padding.2.2.2.2.2 [97] 2 (Or.inl (by decide))⟩

/-- C7: the selector's scoring function.  Every unchosen candidate offset
below `max_len` scores the sum over all keys of
`ceil(log2(count of indistinguishable keys including self))` on the
tentative list; chosen offsets score `usize::MAX`; the appended candidate
attains the minimum score; one loop step stops as solved exactly when that
appended candidate's score is 0; and `roughly_log_2 x = ceil(log2 (x + 1))`
on the `usize` range. -/
theorem C7_scoring (keys : List (List Nat)) (positions : List Nat) (max_len : Nat)
    (hlen : keys.length < 2 ^ 64) :
    (∀ i, i < max_len → positions.contains i = false →
      (positionScores keys positions max_len).getD i 0 =
        specPositionScore keys positions i) ∧
    (∀ i, i < max_len → positions.contains i = true →
      (positionScores keys positions max_len).getD i 0 = usizeMax) ∧
    (∀ best, argminFirst (positionScores keys positions max_len) = some best →
      best < max_len ∧ ∀ j, j < max_len →
        (positionScores keys positions max_len).getD best 0 ≤
          (positionScores keys positions max_len).getD j 0) ∧
    (∀ fuel best, argminFirst (positionScores keys positions max_len) = some best →
      ((positionScores keys positions max_len).getD best 0 = 0 →
        selectPositions keys max_len (fuel + 1) positions =
          .solved (positions ++ [best])) ∧
      ((positionScores keys positions max_len).getD best 0 ≠ 0 →
        selectPositions keys max_len (fuel + 1) positions =
          selectPositions keys max_len fuel (positions ++ [best]))) ∧
    (∀ x, x < 2 ^ 64 → roughly_log_2 x = Nat.clog 2 (x + 1)) := by
  refine ⟨?_, ?_, ?_, ?_, fun x hx => roughly_log_2_eq_clog x hx⟩
  · intro i hi hcont
    rw [positionScores_getD keys positions hi,
      if_neg (by rw [hcont]; exact Bool.false_ne_true)]
    unfold specPositionScore
    congr 1
    apply List.map_congr_left
    intro k hk
    exact keyScore_eq_clog keys (positions ++ [i]) k hk hlen
  · intro i hi hcont
    rw [positionScores_getD keys positions hi, if_pos hcont]
  · intro best hargmin
    obtain ⟨hlt, hmin⟩ := argminFirst_spec _ _ hargmin
    rw [show (positionScores keys positions max_len).length = max_len by
      simp [positionScores]] at hlt
    refine ⟨hlt, fun j hj => hmin j ?_⟩
    rw [show (positionScores keys positions max_len).length = max_len by
      simp [positionScores]]
    exact hj
  · intro fuel best hargmin
    have hstep : selectPositions keys max_len (fuel + 1) positions =
        match argminFirst (positionScores keys positions max_len) with
        | none => SelOutcome.panicked
        | some best_idx =>
          if (positionScores keys positions max_len).getD best_idx 0 = 0
          then SelOutcome.solved (positions ++ [best_idx])
          else selectPositions keys max_len fuel (positions ++ [best_idx]) := rfl
    constructor
    · intro hzero
      rw [hstep, hargmin]
      exact if_pos hzero
    · intro hzero
      rw [hstep, hargmin]
      exact if_neg hzero

/-- C7 witness: concrete instances — the score of the unchosen offset 0 on
two distinct keys, and the ceiling-log identity at 3. -/
theorem C7_scoring_witness :
    (positionScores [[97], [98]] [] 1).getD 0 0 = specPositionScore [[97], [98]] [] 0 ∧
    roughly_log_2 3 = Nat.clog 2 4 :=
  ⟨(C7_scoring [[97], [98]] [] 1 (by norm_num)).1 0 (by norm_num) (by decide),
   (C7_scoring [[97], [98]] [] 1 (by norm_num)).2.2.2.2 3 (by norm_num)⟩

/-- C4 (amended): build-error taxonomy and ownership return.  `try_from`
returns the empty-input error exactly on zero entries, the capacity error
exactly when the entry count exceeds `MAX_LANES * LANE_SIZE`, every `Err`
carries the original input unchanged and one of the three reason codes —
but when the input is nonempty, within capacity and every key is the empty
string, `try_from` panics (`unwrap` on an empty score vector) instead of
returning an error, and this is the only panic. -/
theorem C4_error_taxonomy {T : Type} (MAX LS : Nat) (kvs : List (List Nat × T)) :
    (try_from MAX LS kvs = .err .emptyInput kvs ↔ kvs.length = 0) ∧
    (try_from MAX LS kvs = .err .capacityExceeded kvs ↔
      kvs.length ≠ 0 ∧ MAX * LS < kvs.length) ∧
    (try_from MAX LS kvs = .panicked ↔
      kvs.length ≠ 0 ∧ kvs.length ≤ MAX * LS ∧ ∀ kv ∈ kvs, kv.1 = ([] : List Nat)) ∧
    (∀ e kvs2, try_from MAX LS kvs = .err e kvs2 → kvs2 = kvs ∧
      (e = .emptyInput ∨ e = .capacityExceeded ∨ e = .unsolvable)) := by
  have hmain : (try_from MAX LS kvs = .err .emptyInput kvs ↔ kvs.length = 0) ∧
      (try_from MAX LS kvs = .err .capacityExceeded kvs ↔
        kvs.length ≠ 0 ∧ MAX * LS < kvs.length) ∧
      (try_from MAX LS kvs = .panicked ↔
        kvs.length ≠ 0 ∧ kvs.length ≤ MAX * LS ∧ ∀ kv ∈ kvs, kv.1 = ([] : List Nat)) := by
    by_cases h0 : kvs.length = 0
    · have htf : try_from MAX LS kvs = .err .emptyInput kvs := by
        unfold try_from
        rw [if_pos h0]
      rw [htf]
      refine ⟨⟨fun _ => h0, fun _ => rfl⟩, ?_, ?_⟩
      · constructor
        · intro hh
          simp at hh
        · intro hh
          exact absurd h0 hh.1
      · constructor
        · intro hh
          simp at hh
        · intro hh
          exact absurd h0 hh.1
    · by_cases hcap : kvs.length > MAX * LS
      · have htf : try_from MAX LS kvs = .err .capacityExceeded kvs := by
          unfold try_from
          rw [if_neg h0, if_pos hcap]
        rw [htf]
        refine ⟨?_, ⟨fun _ => ⟨h0, hcap⟩, fun _ => rfl⟩, ?_⟩
        · constructor
          · intro hh
            simp at hh
          · intro hh
            exact absurd hh h0
        · constructor
          · intro hh
            simp at hh
          · intro hh
            omega
      · have hcap' : kvs.length ≤ MAX * LS := by omega
        by_cases hemp : ∀ kv ∈ kvs, kv.1 = ([] : List Nat)
        · have htf : try_from MAX LS kvs = .panicked :=
            try_from_all_empty_panicked MAX LS kvs h0 hcap' hemp
          rw [htf]
          refine ⟨?_, ?_, ⟨fun _ => ⟨h0, hcap', hemp⟩, fun _ => rfl⟩⟩
          · constructor
            · intro hh
              simp at hh
            · intro hh
              exact absurd hh h0
          · constructor
            · intro hh
              simp at hh
            · intro hh
              omega
        · have hml : maxLenOf (keysOf kvs) ≠ 0 := by
            intro hml0
            exact hemp ((keysOf_forall_iff kvs _).mp ((maxLenOf_eq_zero_iff _).mp hml0))
          rcases hsel : selectPositions (keysOf kvs) (maxLenOf (keysOf kvs))
              (MAX / nLanesOf kvs.length LS) [] with P | _ | _
          · have htf : try_from MAX LS kvs = .ok (mkMap MAX LS kvs P) := by
              unfold try_from
              rw [if_neg h0, if_neg hcap, hsel]
            rw [htf]
            refine ⟨?_, ?_, ?_⟩
            · constructor
              · intro hh
                simp at hh
              · intro hh
                exact absurd hh h0
            · constructor
              · intro hh
                simp at hh
              · intro hh
                omega
            · constructor
              · intro hh
                simp at hh
              · intro hh
                exact absurd hh.2.2 hemp
          · have htf : try_from MAX LS kvs = .err .unsolvable kvs := by
              unfold try_from
              rw [if_neg h0, if_neg hcap, hsel]
            rw [htf]
            refine ⟨?_, ?_, ?_⟩
            · constructor
              · intro hh
                simp at hh
              · intro hh
                exact absurd hh h0
            · constructor
              · intro hh
                simp at hh
              · intro hh
                omega
            · constructor
              · intro hh
                simp at hh
              · intro hh
                exact absurd hh.2.2 hemp
          · exact absurd ((selectPositions_panicked_iff _ _ _ _).mp hsel).1 hml
  exact ⟨hmain.1, hmain.2.1, hmain.2.2,
    fun e kvs2 hh => ⟨try_from_err_payload MAX LS kvs e kvs2 hh, by cases e <;> simp⟩⟩

/-- C4 counterexample to the claim as stated: a nonempty, in-capacity input
whose single key is the empty string makes `try_from` panic — a failure
mode that is neither a constructed map nor any of the three `Err`
returns. -/
theorem C4_counterexample :
    try_from 4 2 [(([] : List Nat), (1 : Nat))] = .panicked ∧
    (∀ e kvs2, try_from 4 2 [(([] : List Nat), (1 : Nat))] ≠ .err e kvs2) ∧
    (∀ m, try_from 4 2 [(([] : List Nat), (1 : Nat))] ≠ .ok m) := by
  refine ⟨by decide, ?_, ?_⟩
  · intro e kvs2 h
    rw [show try_from 4 2 [(([] : List Nat), (1 : Nat))] = .panicked by decide] at h
    cases h
  · intro m h
    rw [show try_from 4 2 [(([] : List Nat), (1 : Nat))] = .panicked by decide] at h
    cases h

/-- C4 witness: each classified outcome realised on a concrete input. -/
theorem C4_error_taxonomy_witness :
    try_from 4 2 ([] : List (List Nat × Nat)) = .err .emptyInput [] ∧
    try_from 1 1 [(([97] : List Nat), (1 : Nat)), ([98], 2)] =
      .err .capacityExceeded [(([97] : List Nat), (1 : Nat)), ([98], 2)] ∧
    try_from 4 2 [(([] : List Nat), (1 : Nat))] = .panicked :=
  ⟨(C4_error_taxonomy 4 2 ([] : List (List Nat × Nat))).1.mpr rfl,
   (C4_error_taxonomy 1 1 [(([97] : List Nat), (1 : Nat)), ([98], 2)]).2.1.mpr
     ⟨by decide, by decide⟩,
   (C4_error_taxonomy 4 2 [(([] : List Nat), (1 : Nat))]).2.2.1.mpr
     ⟨by decide, by decide, by decide⟩⟩

/-- C2 (code bug): round-trip fails for the first slot of every lane group
after the first.  With `MAX_LANES = 4`, `LANE_SIZE = 2` and keys `"a"`,
`"b"`, `"c"`, construction succeeds and the stored pair `("c", 3)` sits at
entry index 2 — slot 0 of lane group 1 — yet `get("c")` returns `none`,
because line 186 suppresses the lane increment whenever `matched == 0`.
The other two entries (lane group 0) round-trip as the spec requires. -/
theorem C2_roundtrip_failure :
    try_from 4 2 kvsC2 = .ok mC2 ∧ ([99], 3) ∈ kvsC2 ∧
    mC2.get [99] = none ∧
    mC2.get [97] = some 1 ∧ mC2.get [98] = some 2 := by
  decide

/-- C8: the unsolvability boundary.  The four keys `"aaaa"`, `"abaa"`,
`"aaca"`, `"aaad"` fail to build with `MAX_LANES = 2`, `LANE_SIZE = 16`
(unsolvable error, input returned), and build with `MAX_LANES = 3`,
`LANE_SIZE = 16`, the selector finding exactly 3 discriminating
positions. -/
theorem C8_unsolvability_boundary :
    try_from 2 16 kvs8 = .err .unsolvable kvs8 ∧
    nCharsOf (try_from 3 16 kvs8) = some 3 := by
  decide

/-- C10 (amended): duplicate keys never produce a map.  On a nonempty,
in-capacity input containing two byte-identical keys at distinct indices,
`try_from` returns the unsolvable error whenever at least one key is
nonempty; when every key is empty it panics instead; in no case does it
construct a map. -/
theorem C10_duplicate_keys {T : Type} (MAX LS : Nat) (kvs : List (List Nat × T))
    (i j : Nat) (h0 : kvs.length ≠ 0) (hcap : kvs.length ≤ MAX * LS)
    (hi : i < kvs.length) (hj : j < kvs.length) (hij : i ≠ j)
    (hdup : (keysOf kvs).getD i [] = (keysOf kvs).getD j []) :
    ((∃ kv ∈ kvs, kv.1 ≠ ([] : List Nat)) →
      try_from MAX LS kvs = .err .unsolvable kvs) ∧
    ((∀ kv ∈ kvs, kv.1 = ([] : List Nat)) → try_from MAX LS kvs = .panicked) ∧
    (∀ m, try_from MAX LS kvs ≠ .ok m) := by
  have hi' : i < (keysOf kvs).length := by rwa [keysOf_length]
  have hj' : j < (keysOf kvs).length := by rwa [keysOf_length]
  refine ⟨?_, ?_, ?_⟩
  · rintro ⟨kv, hkv, hne⟩
    have hml : maxLenOf (keysOf kvs) ≠ 0 := by
      intro hml0
      exact hne (((keysOf_forall_iff kvs _).mp ((maxLenOf_eq_zero_iff _).mp hml0)) kv hkv)
    rcases hsel : selectPositions (keysOf kvs) (maxLenOf (keysOf kvs))
        (MAX / nLanesOf kvs.length LS) [] with P | _ | _
    · exact absurd hsel (dup_never_solved (keysOf kvs) hi' hj' hij hdup _ _ _ _)
    · unfold try_from
      rw [if_neg h0, if_neg (by omega), hsel]
    · exact absurd ((selectPositions_panicked_iff _ _ _ _).mp hsel).1 hml
  · intro hemp
    exact try_from_all_empty_panicked MAX LS kvs h0 hcap hemp
  · intro m hok
    obtain ⟨_, _, P, hsel, _⟩ := try_from_ok_elim hok
    exact dup_never_solved (keysOf kvs) hi' hj' hij hdup _ _ _ _ hsel

/-- C10 counterexample to the claim as stated: two entries whose keys are
both the empty string are byte-identical duplicates within capacity, yet
`try_from` panics rather than returning the unsolvable error. -/
theorem C10_counterexample :
    try_from 4 2 [(([] : List Nat), (1 : Nat)), ([], 2)] = .panicked ∧
    try_from 4 2 [(([] : List Nat), (1 : Nat)), ([], 2)] ≠
      .err .unsolvable [(([] : List Nat), (1 : Nat)), ([], 2)] := by
  decide

/-- C10 witness: the duplicate pair of `"a"` keys surfaces the unsolvable
error. -/
theorem C10_duplicate_keys_witness :
    try_from 4 2 dupKvs2 = .err .unsolvable dupKvs2 :=
  (C10_duplicate_keys 4 2 dupKvs2 0 1 (by decide) (by decide) (by decide) (by decide)
    (by decide) (by decide)).1 ⟨([97], 10), by decide, by decide⟩

